import Mathlib

/-!
Shallow embedding of the heartbeat pre-processing pipeline
(`process_data` in `project-pre-processing.ipynb`): the beat segmenter
`separate_hearbeats`, the per-record frame computation, and the record
aggregator `create_img_arrays`, together with theorems about them.

Signals are modelled as lists of rationals (one sample per entry: the
channel-0 sequence that the source extracts with `signal[:, 0]`, the loader
being invoked with `channels=[0]`), annotations as ordered lists of
`(sample position, symbol)` pairs, and the grouping table as an association
list from symbols to class identifiers.  Python slice semantics (negative
indices wrapping from the end, clipping at the bounds) are modelled exactly.
-/

/-- Normalise one Python slice index for a sequence of length `n`:
a negative index counts from the end (`n + i`, clipped below at `0`),
a non-negative index is clipped above at `n`. -/
def pyIdx (n : ℕ) (i : ℤ) : ℕ :=
  if i < 0 then ((n : ℤ) + i).toNat else min i.toNat n

/-- Python slice `l[i : j]`: both bounds are normalised by `pyIdx`, then the
elements from the normalised start (inclusive) to the normalised stop
(exclusive) are taken. -/
def pySlice {α : Type} (l : List α) (i j : ℤ) : List α :=
  (l.take (pyIdx l.length j)).drop (pyIdx l.length i)

/-- Truncation of a rational toward zero: the behaviour of Python `int()`
on a numeric value. -/
def ratTrunc (q : ℚ) : ℤ :=
  if 0 ≤ q then ⌊q⌋ else ⌈q⌉

/-- `scale_factor = 0.786` from `separate_hearbeats`: scale chosen so that
shorter beats in arrhythmias do not contain more than one QRS. -/
def scale_factor : ℚ := 786 / 1000

/-- `frame = int((mean_rate * scale_factor) / 2)`: the per-record half-width
in samples of the slice taken either side of each annotated peak. -/
def pyFrame (mean_rate : ℚ) : ℤ :=
  ratTrunc (mean_rate * scale_factor / 2)

/-- One iteration of the loop body of `separate_hearbeats`: if the symbol of
the annotation `a` is a key of `tbl`, append `signal[pos - f : pos + f]` to
the window list and the class for the symbol to the label list, otherwise
leave the accumulator unchanged. -/
def sepStep (signal : List ℚ) (f : ℤ) (tbl : List (Char × ℕ))
    (acc : List (List ℚ) × List ℕ) (a : ℕ × Char) : List (List ℚ) × List ℕ :=
  match tbl.lookup a.2 with
  | some c =>
      (acc.1 ++ [pySlice signal ((a.1 : ℤ) - f) ((a.1 : ℤ) + f)], acc.2 ++ [c])
  | none => acc

/-- The loop of `separate_hearbeats`, with the frame half-width `f` already
computed: fold `sepStep` over the annotations in order, starting from two
empty lists. -/
def sepFold (signal : List ℚ) (f : ℤ) (tbl : List (Char × ℕ))
    (annotations : List (ℕ × Char)) : List (List ℚ) × List ℕ :=
  annotations.foldl (sepStep signal f tbl) ([], [])

/-- `process_data.separate_hearbeats`: compute the frame half-width from the
mean beat distance once, then walk the annotations in order, slicing the
signal around each annotation whose symbol is a key of the grouping table
and collecting the matching class labels alongside. -/
def separate_hearbeats (signal : List ℚ) (annotations : List (ℕ × Char))
    (mean_rate : ℚ) (supergroup_classes : List (Char × ℕ)) :
    List (List ℚ) × List ℕ :=
  sepFold signal (pyFrame mean_rate) supergroup_classes annotations

/-- The window/label pairs the segmenter produces, written as a filter-map
over the annotation list: one pair per annotation whose symbol is a key of
the table, in annotation order. -/
def segPairs (signal : List ℚ) (f : ℤ) (tbl : List (Char × ℕ))
    (annotations : List (ℕ × Char)) : List (List ℚ × ℕ) :=
  annotations.filterMap fun a =>
    (tbl.lookup a.2).map fun c =>
      (pySlice signal ((a.1 : ℤ) - f) ((a.1 : ℤ) + f), c)

/-- A rendered image: height × width × channel array of pixel intensities.
No image value is ever produced by the embedded aggregator (see
`get_image_array_call`), so only the type is needed. -/
abbrev Img := List (List (List ℕ))

/-- The two ways a run of `create_img_arrays` can raise. -/
inductive PyError
  | assertMismatch
  | typeErrorGetImage
  deriving DecidableEq

/-- The data the two external collaborators deliver for one record: the
channel-0 signal from `load_data`, the annotation sequence, and the mean
beat distance from `get_mean_heartrate`. -/
structure RecordData where
  signal : List ℚ
  annotations : List (ℕ × Char)
  mean_rate : ℚ

/-- The accumulated state of a `process_data` object: the private lists
`__image_arrays` and `__label_strings`, read through the accessor views
`image_arrays` and `label_strings`. -/
structure ProcessData where
  image_arrays : List Img
  label_strings : List ℕ
  deriving DecidableEq

/-- Models the Python call `self.get_image_array(beat)` inside
`create_img_arrays`: in the source, `get_image_array` is defined with the
single parameter `data` and no `self`, so invoking it through the instance
passes two positional arguments and raises `TypeError` before any image is
produced. -/
def get_image_array_call (_data : List ℚ) : Except PyError Img :=
  .error .typeErrorGetImage

/-- The comprehension `[self.get_image_array(beat) for beat in beats]`:
render the beats left to right, propagating the first raise. -/
def renderBeats : List (List ℚ) → Except PyError (List Img)
  | [] => .ok []
  | beat :: rest =>
      match get_image_array_call beat with
      | .error e => .error e
      | .ok img =>
          match renderBeats rest with
          | .ok imgs => .ok (img :: imgs)
          | .error e => .error e

/-- `process_data.create_img_arrays`: for each record (as delivered by the
loader and heart-rate collaborators, in order) segment the beats, assert
that the window and label counts match, extend `__label_strings` with
`labels[2 : -1]`, then render `beats[2 : -1]` and extend `__image_arrays`
with the rendered images.  The result pairs the final object state with the
raise that ended the run, if any; a raise leaves the mutations made so far
in place. -/
def create_img_arrays (supergroup_classes : List (Char × ℕ)) :
    List RecordData → ProcessData → ProcessData × Option PyError
  | [], st => (st, none)
  | r :: rest, st =>
      let bl := separate_hearbeats r.signal r.annotations r.mean_rate
                  supergroup_classes
      if bl.1.length = bl.2.length then
        let st1 : ProcessData :=
          { st with label_strings := st.label_strings ++ pySlice bl.2 2 (-1) }
        match renderBeats (pySlice bl.1 2 (-1)) with
        | .ok imgs =>
            create_img_arrays supergroup_classes rest
              { st1 with image_arrays := st1.image_arrays ++ imgs }
        | .error e => (st1, some e)
      else (st, some .assertMismatch)

/-- The loop of `separate_hearbeats` with the environment threaded
explicitly: the signal and the grouping table are passed through every
iteration and returned, so that the theorem `separate_hearbeats` leaves its
inputs unchanged is statable. -/
def sepLoopSt (f : ℤ) :
    List ℚ → List (Char × ℕ) → List (ℕ × Char) →
    List (List ℚ) × List ℕ →
    (List ℚ × List (Char × ℕ)) × (List (List ℚ) × List ℕ)
  | signal, tbl, [], acc => ((signal, tbl), acc)
  | signal, tbl, a :: rest, acc =>
      sepLoopSt f signal tbl rest (sepStep signal f tbl acc a)

/-- `separate_hearbeats` with the environment threaded: returns the final
values of the signal and grouping-table variables alongside the window and
label lists. -/
def separate_hearbeats_run (signal : List ℚ) (annotations : List (ℕ × Char))
    (mean_rate : ℚ) (supergroup_classes : List (Char × ℕ)) :
    (List ℚ × List (Char × ℕ)) × (List (List ℚ) × List ℕ) :=
  sepLoopSt (pyFrame mean_rate) signal supergroup_classes annotations ([], [])

/-! ## Basic lemmas about the slice and frame computations -/

theorem pyIdx_le (n : ℕ) (i : ℤ) : pyIdx n i ≤ n := by
  unfold pyIdx
  split <;> omega

theorem pySlice_length {α : Type} (l : List α) (i j : ℤ) :
    (pySlice l i j).length = pyIdx l.length j - pyIdx l.length i := by
  have h := pyIdx_le l.length j
  simp [pySlice]
  omega

theorem pySlice_contiguous {α : Type} (l : List α) (i j : ℤ) :
    pySlice l i j <:+: l := by
  unfold pySlice
  exact ( List.drop_suffix _ _).isInfix.trans ( List.take_prefix _ _).isInfix

theorem pyFrame_eq_floor (m : ℚ) (hm : 0 ≤ m) :
    pyFrame m = ⌊m * scale_factor / 2⌋ := by
  have hq : (0 : ℚ) ≤ m * scale_factor / 2 := by
    have hs : (0 : ℚ) ≤ scale_factor := by norm_num [scale_factor]
    positivity
  unfold pyFrame ratTrunc
  rw [if_pos hq]

theorem pyFrame_nonneg (m : ℚ) (hm : 0 ≤ m) : 0 ≤ pyFrame m := by
  have hq : (0 : ℚ) ≤ m * scale_factor / 2 := by
    have hs : (0 : ℚ) ≤ scale_factor := by norm_num [scale_factor]
    positivity
  rw [pyFrame_eq_floor m hm]
  exact Int.floor_nonneg.mpr hq

/-- The length of the slice `l[pos - f : pos + f]` is at most `2 * f`, for
any nonnegative half-width `f` and any position `pos`. -/
theorem pySlice_window_length_le {α : Type} (l : List α) (pos : ℕ) (f : ℤ)
    (hf : 0 ≤ f) :
    ((pySlice l ((pos : ℤ) - f) ((pos : ℤ) + f)).length : ℤ) ≤ 2 * f := by
  rw [pySlice_length]
  unfold pyIdx
  split <;> split <;> omega

/-- When the stop index reaches past the end of the list and the start
index is nonnegative, the Python slice is the suffix from the start index:
clipping at the high end only. -/
theorem pySlice_high_clip {α : Type} (l : List α) (i j : ℤ) (hi : 0 ≤ i)
    (hj : (l.length : ℤ) ≤ j) : pySlice l i j = l.drop i.toNat := by
  unfold pySlice
  have hj' : pyIdx l.length j = l.length := by
    simp only [pyIdx]; split_ifs <;> omega
  have hi' : pyIdx l.length i = min i.toNat l.length := by
    simp only [pyIdx]; split_ifs <;> omega
  rw [hj', hi', List.take_length]
  rcases le_total i.toNat l.length with h | h
  · rw [min_eq_left h]
  · rw [min_eq_right h, List.drop_length]
    exact (List.drop_eq_nil_of_le h).symm

/-- A negative start index wraps to `length + i`; when the stop index is at
most that wrapped position, the Python slice is empty. -/
theorem pySlice_neg_start_empty {α : Type} (l : List α) (i j : ℤ) (hi : i < 0)
    (h0 : 0 ≤ (l.length : ℤ) + i) (hj0 : 0 ≤ j)
    (hj : j ≤ (l.length : ℤ) + i) : pySlice l i j = [] := by
  unfold pySlice
  apply List.drop_eq_nil_of_le
  rw [List.length_take]
  simp only [pyIdx]
  split_ifs <;> omega

/-! ## The segmenter as a filter-map -/

theorem sepFold_foldl (signal : List ℚ) (f : ℤ) (tbl : List (Char × ℕ))
    (annotations : List (ℕ × Char)) :
    ∀ acc : List (List ℚ) × List ℕ,
      annotations.foldl (sepStep signal f tbl) acc
        = (acc.1 ++ (segPairs signal f tbl annotations).map Prod.fst,
           acc.2 ++ (segPairs signal f tbl annotations).map Prod.snd) := by
  induction annotations with
  | nil => intro acc; simp [segPairs]
  | cons a rest ih =>
      intro acc
      rw [List.foldl_cons, ih]
      cases h : tbl.lookup a.2 <;>
        simp [sepStep, segPairs, h, List.filterMap_cons]

theorem separate_hearbeats_eq (signal : List ℚ) (annotations : List (ℕ × Char))
    (mean_rate : ℚ) (tbl : List (Char × ℕ)) :
    separate_hearbeats signal annotations mean_rate tbl
      = ((segPairs signal (pyFrame mean_rate) tbl annotations).map Prod.fst,
         (segPairs signal (pyFrame mean_rate) tbl annotations).map Prod.snd) := by
  simpa [separate_hearbeats, sepFold] using
    sepFold_foldl signal (pyFrame mean_rate) tbl annotations ([], [])

theorem segPairs_map_fst (signal : List ℚ) (f : ℤ) (tbl : List (Char × ℕ))
    (annotations : List (ℕ × Char)) :
    (segPairs signal f tbl annotations).map Prod.fst
      = annotations.filterMap fun a =>
          (tbl.lookup a.2).map fun _ =>
            pySlice signal ((a.1 : ℤ) - f) ((a.1 : ℤ) + f) := by
  induction annotations with
  | nil => simp [segPairs]
  | cons a rest ih =>
      cases h : tbl.lookup a.2 <;>
        simp [segPairs, List.filterMap_cons, h] <;>
        simpa [segPairs] using ih

theorem segPairs_map_snd (signal : List ℚ) (f : ℤ) (tbl : List (Char × ℕ))
    (annotations : List (ℕ × Char)) :
    (segPairs signal f tbl annotations).map Prod.snd
      = annotations.filterMap fun a => tbl.lookup a.2 := by
  induction annotations with
  | nil => simp [segPairs]
  | cons a rest ih =>
      cases h : tbl.lookup a.2 <;>
        simp [segPairs, List.filterMap_cons, h] <;>
        simpa [segPairs] using ih

theorem sepLoopSt_spec (f : ℤ) (signal : List ℚ) (tbl : List (Char × ℕ)) :
    ∀ (annotations : List (ℕ × Char)) (acc : List (List ℚ) × List ℕ),
      sepLoopSt f signal tbl annotations acc
        = ((signal, tbl), annotations.foldl (sepStep signal f tbl) acc) := by
  intro annotations
  induction annotations with
  | nil => intro acc; simp [sepLoopSt]
  | cons a rest ih => intro acc; rw [sepLoopSt, ih, List.foldl_cons]

theorem separate_hearbeats_length_eq (signal : List ℚ)
    (annotations : List (ℕ × Char)) (mean_rate : ℚ) (tbl : List (Char × ℕ)) :
    (separate_hearbeats signal annotations mean_rate tbl).1.length
      = (separate_hearbeats signal annotations mean_rate tbl).2.length := by
  rw [separate_hearbeats_eq]
  simp

/-! ## Claim theorems -/

/-- C1: for every signal, annotation sequence, mean beat distance and
grouping table, the segmenter returns a window list and a label list of
equal length; the windows are exactly the slices
`signal[pos - frame : pos + frame]` for the annotations whose symbol is a
key of the table, in annotation order, the labels are exactly the table's
values for those symbols in the same order, and annotations whose symbol is
not a key produce nothing. -/
theorem separate_hearbeats_windows_labels (signal : List ℚ)
    (annotations : List (ℕ × Char)) (mean_rate : ℚ) (tbl : List (Char × ℕ)) :
    (separate_hearbeats signal annotations mean_rate tbl).1.length
      = (separate_hearbeats signal annotations mean_rate tbl).2.length ∧
    (separate_hearbeats signal annotations mean_rate tbl).1
      = (annotations.filterMap fun a =>
          (tbl.lookup a.2).map fun _ =>
            pySlice signal ((a.1 : ℤ) - pyFrame mean_rate)
              ((a.1 : ℤ) + pyFrame mean_rate)) ∧
    (separate_hearbeats signal annotations mean_rate tbl).2
      = annotations.filterMap fun a => tbl.lookup a.2 := by
  refine ⟨separate_hearbeats_length_eq signal annotations mean_rate tbl, ?_, ?_⟩ <;>
    rw [separate_hearbeats_eq]
  · exact segPairs_map_fst signal (pyFrame mean_rate) tbl annotations
  · exact segPairs_map_snd signal (pyFrame mean_rate) tbl annotations

/-- C5: for every positive mean beat distance the per-record frame
half-width equals `⌊mean_rate * 0.786 / 2⌋`; for `mean_rate = 454.73` it is
exactly `178`; and the segmenter's output depends on the mean beat distance
only through this single per-record frame value, so the frame is constant
across all beats of a record. -/
theorem pyFrame_formula (m m' : ℚ) (hm : 0 < m) (hf : pyFrame m = pyFrame m') :
    pyFrame m = ⌊m * scale_factor / 2⌋ ∧
    pyFrame (45473 / 100) = 178 ∧
    ∀ signal annotations tbl,
      separate_hearbeats signal annotations m tbl
        = separate_hearbeats signal annotations m' tbl := by
  refine ⟨pyFrame_eq_floor m hm.le, ?_, ?_⟩
  · norm_num [pyFrame, ratTrunc, scale_factor]
  · intro signal annotations tbl
    unfold separate_hearbeats
    rw [hf]

/-- Witness for C5 at `m = m' = 454.73`. -/
theorem pyFrame_formula_witness :
    0 < (45473 / 100 : ℚ) ∧
    (pyFrame (45473 / 100) = ⌊(45473 / 100 : ℚ) * scale_factor / 2⌋ ∧
     pyFrame (45473 / 100) = 178 ∧
     ∀ signal annotations tbl,
       separate_hearbeats signal annotations (45473 / 100) tbl
         = separate_hearbeats signal annotations (45473 / 100) tbl) :=
  ⟨by norm_num, pyFrame_formula (45473 / 100) (45473 / 100) (by norm_num) rfl⟩

/-- C6: an annotation whose symbol is not a key of the grouping table
contributes no window and no label, raises nothing, and leaves the output
for the remaining annotations unchanged: deleting such an annotation from
the sequence does not change the segmenter's result. -/
theorem separate_hearbeats_skips_unknown_symbol (signal : List ℚ)
    (pre post : List (ℕ × Char)) (pos : ℕ) (sym : Char) (mean_rate : ℚ)
    (tbl : List (Char × ℕ)) (h : tbl.lookup sym = none) :
    separate_hearbeats signal (pre ++ (pos, sym) :: post) mean_rate tbl
      = separate_hearbeats signal (pre ++ post) mean_rate tbl := by
  rw [separate_hearbeats_eq, separate_hearbeats_eq]
  simp [segPairs, List.filterMap_append, List.filterMap_cons, h]

/-- Witness for C6: the symbol `'X'` is not a key of `[('N', 4)]`, and the
annotation `(2, 'X')` contributes nothing. -/
theorem separate_hearbeats_skips_unknown_symbol_witness :
    ([('N', 4)] : List (Char × ℕ)).lookup 'X' = none ∧
    separate_hearbeats [(0 : ℚ), 1, 2] ([(1, 'N')] ++ (2, 'X') :: []) 26 [('N', 4)]
      = separate_hearbeats [(0 : ℚ), 1, 2] ([(1, 'N')] ++ []) 26 [('N', 4)] :=
  ⟨by decide,
   separate_hearbeats_skips_unknown_symbol [(0 : ℚ), 1, 2] [(1, 'N')] []
     2 'X' 26 [('N', 4)] (by decide)⟩

/-- C7: the segmenter always produces equally many windows and labels, so
the aggregator's pre-trim assertion `len(beats) == len(labels)` holds for
every record it processes: no run of `create_img_arrays`, on any records
and in any state, ever ends with the assertion failure. -/
theorem aggregator_assert_never_fires :
    (∀ signal annotations mean_rate tbl,
        (separate_hearbeats signal annotations mean_rate tbl).1.length
          = (separate_hearbeats signal annotations mean_rate tbl).2.length) ∧
    (∀ tbl records st,
        (create_img_arrays tbl records st).2 ≠ some PyError.assertMismatch) := by
  refine ⟨fun s a m t => separate_hearbeats_length_eq s a m t, ?_⟩
  intro tbl records
  induction records with
  | nil => intro st h; simp [create_img_arrays] at h
  | cons r rest ih =>
      intro st
      simp only [create_img_arrays]
      rw [if_pos (separate_hearbeats_length_eq r.signal r.annotations
            r.mean_rate tbl)]
      cases hb : pySlice (separate_hearbeats r.signal r.annotations
          r.mean_rate tbl).1 2 (-1) with
      | nil => simpa [renderBeats] using ih _
      | cons b bs => simp [renderBeats, get_image_array_call]

/-- C9: segmentation is a pure function of its inputs: the loop with the
environment threaded explicitly returns the signal and the grouping table
unchanged, its output is exactly `separate_hearbeats` of the inputs, and
two runs on identical inputs give identical window and label lists. -/
theorem separate_hearbeats_pure (signal : List ℚ)
    (annotations : List (ℕ × Char)) (mean_rate : ℚ) (tbl : List (Char × ℕ)) :
    (separate_hearbeats_run signal annotations mean_rate tbl).1 = (signal, tbl) ∧
    (separate_hearbeats_run signal annotations mean_rate tbl).2
      = separate_hearbeats signal annotations mean_rate tbl ∧
    ∀ signal2 annotations2 mean2 tbl2,
      signal = signal2 → annotations = annotations2 → mean_rate = mean2 →
      tbl = tbl2 →
      separate_hearbeats signal annotations mean_rate tbl
        = separate_hearbeats signal2 annotations2 mean2 tbl2 := by
  refine ⟨?_, ?_, ?_⟩
  · rw [separate_hearbeats_run, sepLoopSt_spec]
  · rw [separate_hearbeats_run, sepLoopSt_spec]
    rfl
  · rintro _ _ _ _ rfl rfl rfl rfl; rfl

/-- C10: every window the segmenter produces is a contiguous sub-sequence
of the signal (possibly empty) of length at most `2 * frame`, where `frame`
is the per-record half-width; segmentation is total, so it raises for no
annotation positions. -/
theorem separate_hearbeats_window_bounds (signal : List ℚ)
    (annotations : List (ℕ × Char)) (mean_rate : ℚ) (tbl : List (Char × ℕ))
    (hm : 0 < mean_rate) :
    ∀ w ∈ (separate_hearbeats signal annotations mean_rate tbl).1,
      w <:+: signal ∧ (w.length : ℤ) ≤ 2 * pyFrame mean_rate := by
  intro w hw
  rw [separate_hearbeats_eq] at hw
  simp only [ segPairs_map_fst] at hw
  rcases List.mem_filterMap.mp hw with ⟨a, -, ha⟩
  rcases Option.map_eq_some'.mp ha with ⟨c, -, rfl⟩
  exact ⟨pySlice_contiguous signal _ _,
    pySlice_window_length_le signal a.1 (pyFrame mean_rate)
      (pyFrame_nonneg mean_rate hm.le)⟩

/-- Witness for C10 at `mean_rate = 5`. -/
theorem separate_hearbeats_window_bounds_witness :
    0 < (5 : ℚ) ∧
    ∀ w ∈ (separate_hearbeats [(0 : ℚ), 1, 2, 3] [(1, 'N'), (2, 'X')] 5
              [('N', 4)]).1,
      w <:+: [(0 : ℚ), 1, 2, 3] ∧ (w.length : ℤ) ≤ 2 * pyFrame 5 :=
  ⟨by norm_num,
   separate_hearbeats_window_bounds [(0 : ℚ), 1, 2, 3] [(1, 'N'), (2, 'X')] 5
     [('N', 4)] (by norm_num)⟩

/-- C3 counterexample: for the signal `0..39`, the annotation `(5, 'N')`,
mean beat distance `26` (frame half-width `10`, so `pos < frame` and
`pos + frame ≥ 1`), and table `[('N', 4)]`, the produced window is empty —
not the non-empty prefix `signal[0 : pos + frame]` the claim describes:
the negative start index `pos - frame` wraps around to the end of the
signal instead of clipping to `0`. -/
theorem start_edge_window_is_empty :
    (separate_hearbeats ((List.range 40).map fun n => (n : ℚ)) [(5, 'N')] 26
        [('N', 4)]).1 = [[]] ∧
    pySlice ((List.range 40).map fun n => (n : ℚ)) 0 (5 + pyFrame 26) ≠ [] := by
  have h : pyFrame 26 = 10 := by norm_num [pyFrame, ratTrunc, scale_factor]
  constructor
  · simp only [separate_hearbeats, h]
    decide
  · rw [h]
    decide

/-- C3 (amended): a qualifying annotation produces the window
`signal[pos - frame : pos + frame]`.  When `pos ≥ frame` and
`pos + frame` reaches past the end of the signal, this is the clipped,
non-padded suffix `signal[pos - frame :]`, strictly shorter than
`2 * frame`.  When `pos < frame`, however, the negative start index wraps
to `length + pos - frame` instead of clipping to `0`, and whenever
`length ≥ 2 * frame` the resulting window is empty — not the non-empty
prefix `signal[0 : pos + frame]`. -/
theorem clipped_window_characterization (signal : List ℚ) (pos : ℕ)
    (sym : Char) (c : ℕ) (mean_rate : ℚ) (tbl : List (Char × ℕ))
    (hlk : tbl.lookup sym = some c) :
    separate_hearbeats signal [(pos, sym)] mean_rate tbl
      = ([pySlice signal ((pos : ℤ) - pyFrame mean_rate)
            ((pos : ℤ) + pyFrame mean_rate)], [c]) ∧
    (0 < pyFrame mean_rate → 0 ≤ (pos : ℤ) - pyFrame mean_rate →
      (signal.length : ℤ) < (pos : ℤ) + pyFrame mean_rate →
      pySlice signal ((pos : ℤ) - pyFrame mean_rate)
          ((pos : ℤ) + pyFrame mean_rate)
        = signal.drop ((pos : ℤ) - pyFrame mean_rate).toNat ∧
      ((pySlice signal ((pos : ℤ) - pyFrame mean_rate)
          ((pos : ℤ) + pyFrame mean_rate)).length : ℤ) < 2 * pyFrame mean_rate) ∧
    ((pos : ℤ) - pyFrame mean_rate < 0 →
      2 * pyFrame mean_rate ≤ (signal.length : ℤ) →
      pySlice signal ((pos : ℤ) - pyFrame mean_rate)
          ((pos : ℤ) + pyFrame mean_rate) = []) := by
  refine ⟨?_, ?_, ?_⟩
  · rw [separate_hearbeats_eq]
    simp [segPairs, List.filterMap_cons, hlk]
  · intro hf h1 h2
    refine ⟨pySlice_high_clip signal _ _ h1 (by omega), ?_⟩
    rw [pySlice_length]
    simp only [pyIdx]
    split_ifs <;> omega
  · intro h1 h2
    exact pySlice_neg_start_empty signal _ _ h1 (by omega) (by omega) (by omega)

/-- Witness for the amended C3, at a signal of length `12`, annotation
position `10`, and mean beat distance `26` (frame `10`): the end-clipping
branch applies. -/
theorem clipped_window_characterization_witness :
    ([('N', 4)] : List (Char × ℕ)).lookup 'N' = some 4 ∧
    (separate_hearbeats ((List.range 12).map fun n => (n : ℚ)) [(10, 'N')] 26
        [('N', 4)]
      = ([pySlice ((List.range 12).map fun n => (n : ℚ))
            ((10 : ℤ) - pyFrame 26) ((10 : ℤ) + pyFrame 26)], [4]) ∧
    (0 < pyFrame 26 → 0 ≤ ((10 : ℕ) : ℤ) - pyFrame 26 →
      ((((List.range 12).map fun n => (n : ℚ)).length : ℤ)) < ((10 : ℕ) : ℤ) + pyFrame 26 →
      pySlice ((List.range 12).map fun n => (n : ℚ)) (((10 : ℕ) : ℤ) - pyFrame 26)
          (((10 : ℕ) : ℤ) + pyFrame 26)
        = ((List.range 12).map fun n => (n : ℚ)).drop (((10 : ℕ) : ℤ) - pyFrame 26).toNat ∧
      ((pySlice ((List.range 12).map fun n => (n : ℚ)) (((10 : ℕ) : ℤ) - pyFrame 26)
          (((10 : ℕ) : ℤ) + pyFrame 26)).length : ℤ) < 2 * pyFrame 26) ∧
    (((10 : ℕ) : ℤ) - pyFrame 26 < 0 →
      2 * pyFrame 26 ≤ ((((List.range 12).map fun n => (n : ℚ)).length : ℤ)) →
      pySlice ((List.range 12).map fun n => (n : ℚ)) (((10 : ℕ) : ℤ) - pyFrame 26)
          (((10 : ℕ) : ℤ) + pyFrame 26) = [])) :=
  ⟨by decide,
   clipped_window_characterization ((List.range 12).map fun n => (n : ℚ)) 10
     'N' 4 26 [('N', 4)] (by decide)⟩

/-- C2 (code bug): a record whose segmentation yields four window/label
pairs makes `create_img_arrays` raise `TypeError` at the first rendering
call — in the source `get_image_array` is defined without a `self`
parameter but invoked as `self.get_image_array(beat)` — after the trimmed
labels have been appended but before any image is: the pair at index 2 is
never rendered or appended. -/
theorem create_img_arrays_raises_on_first_render :
    create_img_arrays [('N', 4)]
      [⟨(List.range 40).map fun n => (n : ℚ),
        [(12, 'N'), (16, 'N'), (20, 'N'), (24, 'N')], 5⟩]
      ⟨[], []⟩
    = (⟨[], [4]⟩, some PyError.typeErrorGetImage) := by
  have h : pyFrame 5 = 1 := by norm_num [pyFrame, ratTrunc, scale_factor]
  simp only [create_img_arrays, separate_hearbeats, h]
  decide

/-- C4 (code bug): after a call of `create_img_arrays` on a record with
five window/label pairs, the run raises during rendering (see
`get_image_array_call`) with the two trimmed labels already appended and no
image appended: the accessor views are left with different lengths. -/
theorem image_label_views_misaligned_after_raise :
    ((create_img_arrays [('V', 1)]
        [⟨(List.range 30).map fun n => (n : ℚ),
          [(5, 'V'), (10, 'V'), (15, 'V'), (20, 'V'), (25, 'V')], 5⟩]
        ⟨[], []⟩).1.image_arrays.length = 0) ∧
    ((create_img_arrays [('V', 1)]
        [⟨(List.range 30).map fun n => (n : ℚ),
          [(5, 'V'), (10, 'V'), (15, 'V'), (20, 'V'), (25, 'V')], 5⟩]
        ⟨[], []⟩).1.label_strings.length = 2) := by
  have h : pyFrame 5 = 1 := by norm_num [pyFrame, ratTrunc, scale_factor]
  constructor <;> (simp only [create_img_arrays, separate_hearbeats, h]; decide)
